import Mathlib

/-!
Shallow embedding of the rolling-statistics window of
cockroachdb/circuitbreaker (src/window.go), together with theorems
settling the specification claims about it.

Modelling conventions:
* Go `time.Duration` and `time.Time` values are nanosecond counts,
  modelled as `Int` (`time.Time.Sub` yields a duration, `clock.Now()`
  an instant).  The injectable clock is modelled by passing the current
  instant `now` explicitly to each operation that reads the clock.
* Go `int64` counters are modelled as `Int`; `uint64` ring indices as
  `Nat` (the counters only ever grow by 1 per recorded event, so 64-bit
  wraparound is unreachable in any execution the claims quantify over).
* The concurrency discipline (mutex + atomics) is modelled by the
  sequential semantics the lock linearizes: each operation is one
  atomic state transition.
* `float64` arithmetic in `ErrorRate` is modelled by exact rationals.
-/

namespace Circuit

/-- One time slice of the window, from src/window.go: `type bucket struct`
with `failure` and `success` int64 counters. -/
structure Bucket where
  failure : Int
  success : Int
deriving Repr, DecidableEq

/-- `(b *bucket) Reset()`: sets both counts to 0. -/
def Bucket.Reset (_b : Bucket) : Bucket :=
  { failure := 0, success := 0 }

/-- `(b *bucket) Fail()`: increments the failure count. -/
def Bucket.Fail (b : Bucket) : Bucket :=
  { b with failure := b.failure + 1 }

/-- `(b *bucket) Success()`: increments the success count. -/
def Bucket.Success (b : Bucket) : Bucket :=
  { b with success := b.success + 1 }

/-- The sliding-window state, from src/window.go: `type window struct`.
The `clock` field is modelled by the explicit `now` arguments of the
operations; the mutex has no sequential content. -/
structure Window where
  buckets : List Bucket
  bucketTime : Int
  lastAccess : Int
  lastIdx : Nat
deriving Repr, DecidableEq

/-- Go runtime faults that `newWindow` can hit. -/
inductive GoPanic
  | makesliceBadLen
  | divideByZero
deriving Repr, DecidableEq

/-- Outcome of constructing a window.  The code either returns a window
or hits a Go runtime fault; `invalidConfiguration` is the explicit
construction-time failure kind the spec asks for, present in the type so
that the claim about it is statable. -/
inductive ConstructResult
  | ok (w : Window)
  | invalidConfiguration
  | runtimeFault (f : GoPanic)
deriving Repr, DecidableEq

/-- `newWindow(windowTime, windowBuckets, clock)` from src/window.go:
`make([]bucket, windowBuckets)` faults on a negative length; the
bucket-time division `windowTime.Nanoseconds() / int64(windowBuckets)`
(Go division truncates toward zero, `Int.tdiv`) faults on a zero bucket
count.  No validation is performed by the code. -/
def newWindow (windowTime : Int) (windowBuckets : Int) (now : Int) : ConstructResult :=
  if windowBuckets < 0 then .runtimeFault .makesliceBadLen
  else if windowBuckets = 0 then .runtimeFault .divideByZero
  else .ok
    { buckets := List.replicate windowBuckets.toNat { failure := 0, success := 0 }
      bucketTime := Int.tdiv windowTime windowBuckets
      lastAccess := now
      lastIdx := 0 }

/-- The reset loop inside `getLatestBucket`:
`for i := 0; i < n; i++ { lastIdx++; b = &buckets[lastIdx%n]; b.Reset();
elapsed -= bucketTime; if elapsed < bucketTime { break } }`.
Returns the bucket ring, the ring index and the remaining elapsed time. -/
def rotateLoop (buckets : List Bucket) (lastIdx : Nat) (elapsed bucketTime : Int) :
    Nat → List Bucket × Nat × Int
  | 0 => (buckets, lastIdx, elapsed)
  | fuel + 1 =>
    let lastIdx' := lastIdx + 1
    let buckets' := buckets.set (lastIdx' % buckets.length) { failure := 0, success := 0 }
    let elapsed' := elapsed - bucketTime
    if elapsed' < bucketTime then (buckets', lastIdx', elapsed')
    else rotateLoop buckets' lastIdx' elapsed' bucketTime fuel

/-- The ring positions `(idx+1) % n, …, (idx+k) % n` set to the zero
bucket, in loop order: the shape of the ring after `k` iterations of the
reset loop. -/
def resetRange (buckets : List Bucket) (idx : Nat) : Nat → List Bucket
  | 0 => buckets
  | k + 1 =>
    resetRange (buckets.set ((idx + 1) % buckets.length) { failure := 0, success := 0 }) (idx + 1) k

/-- Number of iterations the reset loop performs on elapsed time `e`
with bucket time `t` and at most `fuel` iterations (the loop body always
runs at least once when entered with positive fuel). -/
def rotSteps (e t : Int) : Nat → Nat
  | 0 => 0
  | fuel + 1 => if e - t < t then 1 else 1 + rotSteps (e - t) t fuel

/-- `(w *window) getLatestBucket()` from src/window.go: if more than one
bucket time has elapsed since the last access, advance the ring (at most
`len(buckets)` steps), resetting each newly-current bucket, and record
the access time.  Returns the updated window and the index of the
current bucket. -/
def Window.getLatestBucket (w : Window) (now : Int) : Window × Nat :=
  if now - w.lastAccess > w.bucketTime then
    ({ w with
        buckets := (rotateLoop w.buckets w.lastIdx (now - w.lastAccess) w.bucketTime
          w.buckets.length).1
        lastIdx := (rotateLoop w.buckets w.lastIdx (now - w.lastAccess) w.bucketTime
          w.buckets.length).2.1
        lastAccess := now },
      (rotateLoop w.buckets w.lastIdx (now - w.lastAccess) w.bucketTime
        w.buckets.length).2.1 % w.buckets.length)
  else
    (w, w.lastIdx % w.buckets.length)

/-- Apply a function to the bucket at a given ring position. -/
def modifyIdx (f : Bucket → Bucket) : Nat → List Bucket → List Bucket
  | _, [] => []
  | 0, b :: bs => f b :: bs
  | i + 1, b :: bs => b :: modifyIdx f i bs

/-- `(w *window) Fail()`: records a failure in the current bucket. -/
def Window.fail (w : Window) (now : Int) : Window :=
  { (w.getLatestBucket now).1 with
      buckets := modifyIdx Bucket.Fail (w.getLatestBucket now).2
        (w.getLatestBucket now).1.buckets }

/-- `(w *window) Success()`: records a success in the current bucket. -/
def Window.success (w : Window) (now : Int) : Window :=
  { (w.getLatestBucket now).1 with
      buckets := modifyIdx Bucket.Success (w.getLatestBucket now).2
        (w.getLatestBucket now).1.buckets }

/-- `(w *window) Failures()`: sum of the failure counts of all buckets. -/
def Window.Failures (w : Window) : Int :=
  (w.buckets.map Bucket.failure).sum

/-- `(w *window) Successes()`: sum of the success counts of all buckets. -/
def Window.Successes (w : Window) : Int :=
  (w.buckets.map Bucket.success).sum

/-- `(w *window) Total()`: sum of `success + failure` over all buckets. -/
def Window.Total (w : Window) : Int :=
  (w.buckets.map (fun b => b.success + b.failure)).sum

/-- `(w *window) ErrorRate()` from src/window.go, with `float64`
modelled by exact rationals: `total` accumulates successes, `failures`
the failures, then `total += failures`; an empty total yields `0.0`. -/
def Window.ErrorRate (w : Window) : ℚ :=
  let failures := (w.buckets.map Bucket.failure).sum
  let total := (w.buckets.map Bucket.success).sum + failures
  if total = 0 then 0
  else (failures : ℚ) / (total : ℚ)

/-- `(w *window) Reset()`: resets every bucket in the ring. -/
def Window.Reset (w : Window) : Window :=
  { w with buckets := w.buckets.map Bucket.Reset }

/-- One recorded event, tagged with the clock reading at which it is
recorded (the injectable clock made explicit). -/
inductive Op
  | fail (now : Int)
  | success (now : Int)
deriving Repr, DecidableEq

/-- The clock reading at which an event is recorded. -/
def Op.time : Op → Int
  | .fail now => now
  | .success now => now

/-- Apply a single recorded event to the window. -/
def applyOp (w : Window) : Op → Window
  | .fail now => w.fail now
  | .success now => w.success now

/-- Apply a sequence of recorded events, oldest first. -/
def applyOps (w : Window) (ops : List Op) : Window :=
  ops.foldl applyOp w

/-- Number of failure events in a sequence. -/
def countFails (ops : List Op) : Nat :=
  (ops.filter (fun op => match op with | .fail _ => true | .success _ => false)).length

/-- Number of success events in a sequence. -/
def countSuccesses (ops : List Op) : Nat :=
  (ops.filter (fun op => match op with | .fail _ => false | .success _ => true)).length

/-- The window states reachable from construction by recording events
and resetting (the sequential executions linearized by the lock). -/
inductive Reachable : Window → Prop
  | init (windowTime windowBuckets now : Int) (w : Window) :
      newWindow windowTime windowBuckets now = .ok w → Reachable w
  | fail (w : Window) (now : Int) : Reachable w → Reachable (w.fail now)
  | success (w : Window) (now : Int) : Reachable w → Reachable (w.success now)
  | reset (w : Window) : Reachable w → Reachable w.Reset

/-- Both counters of a bucket are non-negative. -/
def Bucket.Nonneg (b : Bucket) : Prop :=
  0 ≤ b.failure ∧ 0 ≤ b.success

/-- Every bucket of the window has non-negative counters. -/
def Window.Nonneg (w : Window) : Prop :=
  ∀ b ∈ w.buckets, b.Nonneg

/-- Modelled from the spec: the saturating bucket of §4.1.  The field
`limited` (the limited-failure counter) and the operation
`FailLimited(cap)` appear only in src/window_test.go; the implementing
code is not under src/, so this bucket variant follows the spec text. -/
structure BucketL where
  failure : Int
  success : Int
  limited : Int
deriving Repr, DecidableEq

/-- Modelled from the spec: unbounded `Fail()` on the saturating bucket
(atomically increments the failure counter by 1). -/
def BucketL.fail (b : BucketL) : BucketL :=
  { b with failure := b.failure + 1 }

/-- Modelled from the spec: `FailLimited(cap)` increments the failure
counter only while its current value is below `cap`; once the cap is
reached, further failure events instead increment the limited-failure
counter.  When `cap` is 0 (unset), behaves as unbounded `Fail()`. -/
def BucketL.failLimited (cap : Int) (b : BucketL) : BucketL :=
  if cap = 0 then b.fail
  else if b.failure < cap then { b with failure := b.failure + 1 }
  else { b with limited := b.limited + 1 }

/-- `k` failure events delivered to a saturating bucket within a single
bucket interval (no rotation in between). -/
def iterFailLimited (cap : Int) : Nat → BucketL → BucketL
  | 0, b => b
  | k + 1, b => iterFailLimited cap k (b.failLimited cap)

/-- Number of buckets of the ring holding a positive failure count (the
quantity inspected by TestWindowSlides). -/
def countFailBuckets (w : Window) : Nat :=
  (w.buckets.filter (fun b => decide (0 < b.failure))).length

/-- The all-zero bucket. -/
def zeroBucket : Bucket :=
  { failure := 0, success := 0 }

/-! ### Structural lemmas about the ring operations -/

theorem modifyIdx_length (f : Bucket → Bucket) :
    ∀ (i : Nat) (l : List Bucket), (modifyIdx f i l).length = l.length := by
  intro i l
  induction l generalizing i with
  | nil => cases i <;> rfl
  | cons b bs ih => cases i with
    | zero => rfl
    | succ j => simpa [modifyIdx] using ih j

theorem resetRange_length :
    ∀ (k : Nat) (bks : List Bucket) (idx : Nat),
      (resetRange bks idx k).length = bks.length := by
  intro k
  induction k with
  | zero => intro bks idx; rfl
  | succ k ih =>
    intro bks idx
    simp only [resetRange]
    rw [ih, List.length_set]

theorem rotateLoop_length :
    ∀ (fuel : Nat) (bks : List Bucket) (idx : Nat) (e t : Int),
      (rotateLoop bks idx e t fuel).1.length = bks.length := by
  intro fuel
  induction fuel with
  | zero => intro bks idx e t; rfl
  | succ fuel ih =>
    intro bks idx e t
    simp only [rotateLoop]
    by_cases h : e - t < t
    · simp [h, List.length_set]
    · simp only [if_neg h]
      rw [ih, List.length_set]

theorem getLatestBucket_of_le (w : Window) (now : Int)
    (h : now - w.lastAccess ≤ w.bucketTime) :
    w.getLatestBucket now = (w, w.lastIdx % w.buckets.length) := by
  unfold Window.getLatestBucket
  rw [if_neg (not_lt.mpr h)]

theorem fail_of_le (w : Window) (now : Int)
    (h : now - w.lastAccess ≤ w.bucketTime) :
    w.fail now =
      { w with buckets := modifyIdx Bucket.Fail (w.lastIdx % w.buckets.length) w.buckets } := by
  unfold Window.fail
  rw [getLatestBucket_of_le w now h]

theorem success_of_le (w : Window) (now : Int)
    (h : now - w.lastAccess ≤ w.bucketTime) :
    w.success now =
      { w with buckets := modifyIdx Bucket.Success (w.lastIdx % w.buckets.length) w.buckets } := by
  unfold Window.success
  rw [getLatestBucket_of_le w now h]

/-! ### Sums over the ring after a point update -/

theorem sum_failure_modifyIdx_fail :
    ∀ (l : List Bucket) (i : Nat), i < l.length →
      ((modifyIdx Bucket.Fail i l).map Bucket.failure).sum
        = (l.map Bucket.failure).sum + 1 := by
  intro l
  induction l with
  | nil => intro i h; simp at h
  | cons b bs ih =>
    intro i h
    cases i with
    | zero => simp [modifyIdx, Bucket.Fail]; ring
    | succ j =>
      have hj : j < bs.length := by simpa using h
      simp only [modifyIdx, List.map_cons, List.sum_cons, ih j hj]
      ring

theorem sum_success_modifyIdx_fail :
    ∀ (l : List Bucket) (i : Nat),
      ((modifyIdx Bucket.Fail i l).map Bucket.success).sum
        = (l.map Bucket.success).sum := by
  intro l
  induction l with
  | nil => intro i; cases i <;> rfl
  | cons b bs ih =>
    intro i
    cases i with
    | zero => simp [modifyIdx, Bucket.Fail]
    | succ j => simp [modifyIdx, ih j]

theorem sum_failure_modifyIdx_success :
    ∀ (l : List Bucket) (i : Nat),
      ((modifyIdx Bucket.Success i l).map Bucket.failure).sum
        = (l.map Bucket.failure).sum := by
  intro l
  induction l with
  | nil => intro i; cases i <;> rfl
  | cons b bs ih =>
    intro i
    cases i with
    | zero => simp [modifyIdx, Bucket.Success]
    | succ j => simp [modifyIdx, ih j]

theorem sum_success_modifyIdx_success :
    ∀ (l : List Bucket) (i : Nat), i < l.length →
      ((modifyIdx Bucket.Success i l).map Bucket.success).sum
        = (l.map Bucket.success).sum + 1 := by
  intro l
  induction l with
  | nil => intro i h; simp at h
  | cons b bs ih =>
    intro i h
    cases i with
    | zero => simp [modifyIdx, Bucket.Success]; ring
    | succ j =>
      have hj : j < bs.length := by simpa using h
      simp only [modifyIdx, List.map_cons, List.sum_cons, ih j hj]
      ring

/-! ### Characterization of the reset loop -/

theorem rotateLoop_eq :
    ∀ (fuel : Nat) (bks : List Bucket) (idx : Nat) (e t : Int),
      rotateLoop bks idx e t fuel =
        (resetRange bks idx (rotSteps e t fuel), idx + rotSteps e t fuel,
          e - (rotSteps e t fuel : Int) * t) := by
  intro fuel
  induction fuel with
  | zero => intro bks idx e t; simp [rotateLoop, rotSteps, resetRange]
  | succ fuel ih =>
    intro bks idx e t
    by_cases h : e - t < t
    · simp only [rotateLoop, rotSteps, if_pos h]
      simp [resetRange]
    · simp only [rotateLoop, rotSteps, if_neg h, ih]
      rw [Nat.add_comm 1 (rotSteps (e - t) t fuel)]
      simp only [Prod.mk.injEq, resetRange]
      refine ⟨trivial, by omega, by push_cast; ring⟩

theorem ediv_eq_one_of_lt (e t : Int) (ht : 0 < t) (he : t ≤ e) (h2 : e < 2 * t) :
    e / t = 1 := by
  have h1 : 1 ≤ e / t := by
    have h := Int.ediv_le_ediv ht he
    rwa [Int.ediv_self (ne_of_gt ht)] at h
  have h2' : e / t ≤ 1 := by
    have hle : e ≤ t - 1 + 1 * t := by omega
    have hz : (t - 1) / t = 0 := Int.ediv_eq_zero_of_lt (by omega) (by omega)
    have h := Int.ediv_le_ediv ht hle
    rwa [Int.add_mul_ediv_right _ _ (ne_of_gt ht), hz, zero_add] at h
  omega

theorem rotSteps_eq (t : Int) (ht : 0 < t) :
    ∀ (fuel : Nat) (e : Int), t ≤ e → rotSteps e t fuel = min fuel (e / t).toNat := by
  intro fuel
  induction fuel with
  | zero => intro e he; simp [rotSteps]
  | succ fuel ih =>
    intro e he
    by_cases h : e - t < t
    · have hdiv : e / t = 1 := ediv_eq_one_of_lt e t ht he (by omega)
      simp only [rotSteps, if_pos h, hdiv]
      omega
    · have he2 : t ≤ e - t := by omega
      have hdiv : (e - t) / t = e / t - 1 := by
        have h' := Int.add_mul_ediv_right e (-1) (ne_of_gt ht)
        rw [show e - t = e + (-1) * t by ring, h']
        ring
      have h1 : 1 ≤ e / t := by
        have h' := Int.ediv_le_ediv ht he
        rwa [Int.ediv_self (ne_of_gt ht)] at h'
      rw [show rotSteps e t (fuel + 1) = if e - t < t then 1 else 1 + rotSteps (e - t) t fuel
          from rfl,
        if_neg h, ih (e - t) he2, hdiv]
      omega

theorem resetRange_getElem?_not_mem :
    ∀ (k : Nat) (bks : List Bucket) (idx i : Nat),
      (∀ j, 1 ≤ j → j ≤ k → (idx + j) % bks.length ≠ i) →
      (resetRange bks idx k)[i]? = bks[i]? := by
  intro k
  induction k with
  | zero => intro bks idx i _; rfl
  | succ k ih =>
    intro bks idx i hnone
    simp only [resetRange]
    have h1 : (idx + 1) % bks.length ≠ i := hnone 1 (by omega) (by omega)
    have hrec : ∀ j, 1 ≤ j → j ≤ k →
        ((idx + 1) + j) % (bks.set ((idx + 1) % bks.length) zeroBucket).length ≠ i := by
      intro j hj1 hjk
      rw [List.length_set]
      have := hnone (j + 1) (by omega) (by omega)
      simpa [Nat.add_assoc, Nat.add_comm 1 j] using this
    rw [show ({ failure := 0, success := 0 } : Bucket) = zeroBucket from rfl]
    rw [ih _ _ _ hrec, List.getElem?_set_ne h1]

theorem resetRange_getElem?_mem :
    ∀ (k : Nat) (bks : List Bucket) (idx i : Nat), 0 < bks.length →
      (∃ j, 1 ≤ j ∧ j ≤ k ∧ (idx + j) % bks.length = i) →
      (resetRange bks idx k)[i]? = some zeroBucket := by
  intro k
  induction k with
  | zero =>
    intro bks idx i _ hex
    obtain ⟨j, hj1, hj0, _⟩ := hex
    omega
  | succ k ih =>
    intro bks idx i hn hex
    simp only [resetRange]
    rw [show ({ failure := 0, success := 0 } : Bucket) = zeroBucket from rfl]
    set bks' := bks.set ((idx + 1) % bks.length) zeroBucket with hbks'
    have hlen : bks'.length = bks.length := List.length_set ..
    by_cases hrec : ∃ j, 1 ≤ j ∧ j ≤ k ∧ ((idx + 1) + j) % bks'.length = i
    · exact ih bks' (idx + 1) i (by omega) hrec
    · obtain ⟨j, hj1, hjk, hji⟩ := hex
      have hj : j = 1 := by
        by_contra hne
        exact hrec ⟨j - 1, by omega, by omega, by
          rw [hlen, show idx + 1 + (j - 1) = idx + j by omega]; exact hji⟩
      subst hj
      have hi : (idx + 1) % bks.length = i := hji
      have hilt : i < bks'.length := by rw [hlen, ← hi]; exact Nat.mod_lt _ hn
      rw [resetRange_getElem?_not_mem k bks' (idx + 1) i (by
        intro j' hj'1 hj'k
        intro hcon
        exact hrec ⟨j', hj'1, hj'k, hcon⟩)]
      rw [hbks', ← hi]
      exact List.getElem?_set_self (by rw [← hi] at hilt; rwa [hlen] at hilt)

theorem mem_resetRange :
    ∀ (k : Nat) (bks : List Bucket) (idx : Nat) (b : Bucket),
      b ∈ resetRange bks idx k → b ∈ bks ∨ b = zeroBucket := by
  intro k
  induction k with
  | zero => intro bks idx b hb; exact Or.inl hb
  | succ k ih =>
    intro bks idx b hb
    simp only [resetRange] at hb
    rcases ih _ _ _ hb with h | h
    · exact List.mem_or_eq_of_mem_set h
    · exact Or.inr h

theorem mem_modifyIdx (f : Bucket → Bucket) :
    ∀ (i : Nat) (l : List Bucket) (b : Bucket),
      b ∈ modifyIdx f i l → b ∈ l ∨ ∃ a ∈ l, b = f a := by
  intro i l
  induction l generalizing i with
  | nil => intro b hb; cases i <;> exact Or.inl hb
  | cons x xs ih =>
    intro b hb
    cases i with
    | zero =>
      rcases List.mem_cons.mp hb with h | h
      · exact Or.inr ⟨x, List.mem_cons_self x xs, h⟩
      · exact Or.inl (List.mem_cons_of_mem x h)
    | succ j =>
      rcases List.mem_cons.mp hb with h | h
      · exact Or.inl (h ▸ List.mem_cons_self x xs)
      · rcases ih j b h with h' | ⟨a, ha, hba⟩
        · exact Or.inl (List.mem_cons_of_mem x h')
        · exact Or.inr ⟨a, List.mem_cons_of_mem x ha, hba⟩

theorem exists_step_of_lt (n idx i : Nat) (hn : 0 < n) (hi : i < n) :
    ∃ j, 1 ≤ j ∧ j ≤ n ∧ (idx + j) % n = i := by
  rcases Nat.lt_or_ge (idx % n) i with hlt | hge
  · refine ⟨i - idx % n, by omega, by omega, ?_⟩
    rw [← Nat.mod_add_mod, show idx % n + (i - idx % n) = i by omega]
    exact Nat.mod_eq_of_lt hi
  · refine ⟨n - idx % n + i, by have := Nat.mod_lt idx hn; omega, by omega, ?_⟩
    rw [← Nat.mod_add_mod, show idx % n + (n - idx % n + i) = n + i by
      have := Nat.mod_lt idx hn; omega, Nat.add_mod_left]
    exact Nat.mod_eq_of_lt hi

/-! ### The non-negativity invariant of reachable windows -/

theorem newWindow_ok (wt wb now : Int) (w : Window)
    (h : newWindow wt wb now = .ok w) :
    0 < wb ∧ w = { buckets := List.replicate wb.toNat zeroBucket
                   bucketTime := Int.tdiv wt wb
                   lastAccess := now
                   lastIdx := 0 } := by
  by_cases h1 : wb < 0
  · simp [newWindow, h1] at h
  · by_cases h2 : wb = 0
    · simp [newWindow, h1, h2] at h
    · simp only [newWindow, if_neg h1, if_neg h2, ConstructResult.ok.injEq] at h
      exact ⟨by omega, h.symm⟩

theorem zeroBucket_nonneg : zeroBucket.Nonneg :=
  ⟨le_refl 0, le_refl 0⟩

theorem nonneg_getLatestBucket (w : Window) (now : Int) (hw : w.Nonneg) :
    (w.getLatestBucket now).1.Nonneg := by
  unfold Window.getLatestBucket
  by_cases h : now - w.lastAccess > w.bucketTime
  · rw [if_pos h]
    intro b hb
    simp only [rotateLoop_eq] at hb
    rcases mem_resetRange _ _ _ _ hb with h' | h'
    · exact hw b h'
    · rw [h']; exact zeroBucket_nonneg
  · rw [if_neg h]; exact hw

theorem nonneg_fail (w : Window) (now : Int) (hw : w.Nonneg) :
    (w.fail now).Nonneg := by
  have h1 := nonneg_getLatestBucket w now hw
  intro b hb
  simp only [Window.fail] at hb
  rcases mem_modifyIdx Bucket.Fail _ _ _ hb with h | ⟨a, ha, rfl⟩
  · exact h1 b h
  · obtain ⟨hfa, hsa⟩ := h1 a ha
    exact ⟨by simp [Bucket.Fail]; omega, hsa⟩

theorem nonneg_success (w : Window) (now : Int) (hw : w.Nonneg) :
    (w.success now).Nonneg := by
  have h1 := nonneg_getLatestBucket w now hw
  intro b hb
  simp only [Window.success] at hb
  rcases mem_modifyIdx Bucket.Success _ _ _ hb with h | ⟨a, ha, rfl⟩
  · exact h1 b h
  · obtain ⟨hfa, hsa⟩ := h1 a ha
    exact ⟨hfa, by simp [Bucket.Success]; omega⟩

theorem nonneg_reset (w : Window) : w.Reset.Nonneg := by
  intro b hb
  simp only [Window.Reset] at hb
  rcases List.mem_map.mp hb with ⟨a, _, rfl⟩
  exact zeroBucket_nonneg

theorem reachable_nonneg (w : Window) (h : Reachable w) : w.Nonneg := by
  induction h with
  | init wt wb now w hok =>
    obtain ⟨-, rfl⟩ := newWindow_ok wt wb now w hok
    intro b hb
    rw [List.eq_of_mem_replicate hb]
    exact zeroBucket_nonneg
  | fail w now _ ih => exact nonneg_fail w now ih
  | success w now _ ih => exact nonneg_success w now ih
  | reset w _ _ => exact nonneg_reset w

/-! ### Recording within a single bucket interval -/

theorem countFails_cons_fail (now : Int) (ops : List Op) :
    countFails (Op.fail now :: ops) = countFails ops + 1 := by
  simp [countFails]

theorem countFails_cons_success (now : Int) (ops : List Op) :
    countFails (Op.success now :: ops) = countFails ops := by
  simp [countFails]

theorem countSuccesses_cons_fail (now : Int) (ops : List Op) :
    countSuccesses (Op.fail now :: ops) = countSuccesses ops := by
  simp [countSuccesses]

theorem countSuccesses_cons_success (now : Int) (ops : List Op) :
    countSuccesses (Op.success now :: ops) = countSuccesses ops + 1 := by
  simp [countSuccesses]

theorem applyOps_one_bucket (bt t0 : Int) (m : Nat) :
    ∀ (ops : List Op) (F S : Int),
      (∀ op ∈ ops, op.time ≤ t0 + bt) →
      applyOps { buckets := { failure := F, success := S } :: List.replicate m zeroBucket
                 bucketTime := bt
                 lastAccess := t0
                 lastIdx := 0 } ops
        = { buckets := { failure := F + countFails ops, success := S + countSuccesses ops }
              :: List.replicate m zeroBucket
            bucketTime := bt
            lastAccess := t0
            lastIdx := 0 } := by
  intro ops
  induction ops with
  | nil => intro F S _; simp [applyOps, countFails, countSuccesses]
  | cons op ops ih =>
    intro F S hops
    have hop : op.time ≤ t0 + bt := hops op (List.mem_cons_self op ops)
    have hops' : ∀ o ∈ ops, o.time ≤ t0 + bt := fun o ho => hops o (List.mem_cons_of_mem op ho)
    cases op with
    | fail now =>
      rw [show applyOps
            { buckets := { failure := F, success := S } :: List.replicate m zeroBucket
              bucketTime := bt, lastAccess := t0, lastIdx := 0 } (Op.fail now :: ops)
          = applyOps (Window.fail
            { buckets := { failure := F, success := S } :: List.replicate m zeroBucket
              bucketTime := bt, lastAccess := t0, lastIdx := 0 } now) ops from rfl]
      rw [fail_of_le _ now (by simp only [Op.time] at hop; show now - t0 ≤ bt; omega)]
      simp only [List.length_cons, Nat.zero_mod, modifyIdx, Bucket.Fail]
      rw [ih (F + 1) S hops', countFails_cons_fail, countSuccesses_cons_fail]
      simp only [Window.mk.injEq, List.cons.injEq, Bucket.mk.injEq, and_true, true_and]
      push_cast
      ring
    | success now =>
      rw [show applyOps
            { buckets := { failure := F, success := S } :: List.replicate m zeroBucket
              bucketTime := bt, lastAccess := t0, lastIdx := 0 } (Op.success now :: ops)
          = applyOps (Window.success
            { buckets := { failure := F, success := S } :: List.replicate m zeroBucket
              bucketTime := bt, lastAccess := t0, lastIdx := 0 } now) ops from rfl]
      rw [success_of_le _ now (by simp only [Op.time] at hop; show now - t0 ≤ bt; omega)]
      simp only [List.length_cons, Nat.zero_mod, modifyIdx, Bucket.Success]
      rw [ih F (S + 1) hops', countFails_cons_success, countSuccesses_cons_success]
      simp only [Window.mk.injEq, List.cons.injEq, Bucket.mk.injEq, and_true, true_and]
      push_cast
      ring

theorem sum_failure_replicate_zero (m : Nat) :
    ((List.replicate m zeroBucket).map Bucket.failure).sum = 0 := by
  simp [List.map_replicate, zeroBucket]

theorem sum_success_replicate_zero (m : Nat) :
    ((List.replicate m zeroBucket).map Bucket.success).sum = 0 := by
  simp [List.map_replicate, zeroBucket]

theorem Failures_one_bucket (F S bt t0 : Int) (m : Nat) :
    Window.Failures { buckets := { failure := F, success := S } :: List.replicate m zeroBucket
                      bucketTime := bt, lastAccess := t0, lastIdx := 0 } = F := by
  simp [Window.Failures, zeroBucket, List.sum_replicate]

theorem Successes_one_bucket (F S bt t0 : Int) (m : Nat) :
    Window.Successes { buckets := { failure := F, success := S } :: List.replicate m zeroBucket
                       bucketTime := bt, lastAccess := t0, lastIdx := 0 } = S := by
  simp [Window.Successes, zeroBucket, List.sum_replicate]

/-! ### The saturating bucket -/

theorem failLimited_below (cap f s l : Int) (hcap : cap ≠ 0) (hlt : f < cap) :
    BucketL.failLimited cap { failure := f, success := s, limited := l }
      = { failure := f + 1, success := s, limited := l } := by
  simp [BucketL.failLimited, hcap, hlt]

theorem failLimited_at_cap (cap f s l : Int) (hcap : cap ≠ 0) (hge : ¬ f < cap) :
    BucketL.failLimited cap { failure := f, success := s, limited := l }
      = { failure := f, success := s, limited := l + 1 } := by
  simp [BucketL.failLimited, hcap, hge]

theorem iterFailLimited_spec (cap : Int) (hcap : 0 < cap) :
    ∀ (k : Nat) (f s l : Int), 0 ≤ f → f ≤ cap →
      iterFailLimited cap k { failure := f, success := s, limited := l } =
        if f + (k : Int) ≤ cap then { failure := f + (k : Int), success := s, limited := l }
        else { failure := cap, success := s, limited := l + (f + (k : Int) - cap) } := by
  intro k
  induction k with
  | zero =>
    intro f s l hf hfc
    rw [if_pos (by push_cast; omega)]
    simp [iterFailLimited]
  | succ k ih =>
    intro f s l hf hfc
    have hcap0 : cap ≠ 0 := by omega
    rw [show iterFailLimited cap (k + 1) { failure := f, success := s, limited := l }
        = iterFailLimited cap k
            (BucketL.failLimited cap { failure := f, success := s, limited := l }) from rfl]
    by_cases hlt : f < cap
    · rw [failLimited_below cap f s l hcap0 hlt, ih (f + 1) s l (by omega) (by omega)]
      by_cases hle : f + ((k : Int) + 1) ≤ cap
      · rw [if_pos (by omega), if_pos (by push_cast; omega)]
        simp only [BucketL.mk.injEq, and_true, true_and]
        omega
      · rw [if_neg (by omega), if_neg (by push_cast; omega)]
        simp only [BucketL.mk.injEq, and_true, true_and]
        omega
    · rw [failLimited_at_cap cap f s l hcap0 hlt, ih f s (l + 1) hf hfc]
      have hf' : f = cap := by omega
      by_cases hk : (k : Int) = 0
      · rw [if_pos (by omega), if_neg (by push_cast; omega)]
        simp only [BucketL.mk.injEq, and_true, true_and]
        omega
      · rw [if_neg (by omega), if_neg (by push_cast; omega)]
        simp only [BucketL.mk.injEq, and_true, true_and]
        omega

/-! ### Aggregate-query helper lemmas -/

theorem ErrorRate_eq (w : Window) :
    w.ErrorRate = if w.Successes + w.Failures = 0 then 0
      else ((w.Failures : ℚ) / ((w.Successes + w.Failures : Int) : ℚ)) := rfl

theorem sum_add_split (l : List Bucket) :
    (l.map (fun b => b.success + b.failure)).sum
      = (l.map Bucket.failure).sum + (l.map Bucket.success).sum := by
  induction l with
  | nil => simp
  | cons b bs ih => simp [ih]; ring

theorem total_eq (w : Window) : w.Total = w.Failures + w.Successes :=
  sum_add_split w.buckets

theorem Failures_nonneg (w : Window) (hw : w.Nonneg) : 0 ≤ w.Failures := by
  refine List.sum_nonneg ?_
  intro x hx
  rcases List.mem_map.mp hx with ⟨b, hb, rfl⟩
  exact (hw b hb).1

theorem Successes_nonneg (w : Window) (hw : w.Nonneg) : 0 ≤ w.Successes := by
  refine List.sum_nonneg ?_
  intro x hx
  rcases List.mem_map.mp hx with ⟨b, hb, rfl⟩
  exact (hw b hb).2

theorem sum_failure_map_reset (l : List Bucket) :
    ((l.map Bucket.Reset).map Bucket.failure).sum = 0 := by
  induction l with
  | nil => rfl
  | cons b bs ih => simpa [Bucket.Reset, List.map_map] using ih

theorem sum_success_map_reset (l : List Bucket) :
    ((l.map Bucket.Reset).map Bucket.success).sum = 0 := by
  induction l with
  | nil => rfl
  | cons b bs ih => simpa [Bucket.Reset, List.map_map] using ih

/-! ### The rotation step under a long gap -/

theorem getLatestBucket_of_gt (w : Window) (now : Int)
    (he : w.bucketTime < now - w.lastAccess) :
    w.getLatestBucket now =
      ({ w with
          buckets := resetRange w.buckets w.lastIdx
            (rotSteps (now - w.lastAccess) w.bucketTime w.buckets.length)
          lastIdx := w.lastIdx
            + rotSteps (now - w.lastAccess) w.bucketTime w.buckets.length
          lastAccess := now },
        (w.lastIdx + rotSteps (now - w.lastAccess) w.bucketTime w.buckets.length)
          % w.buckets.length) := by
  unfold Window.getLatestBucket
  rw [if_pos he]
  simp only [rotateLoop_eq]

theorem rotSteps_full (w : Window) (now : Int)
    (hn : 0 < w.buckets.length) (ht : 0 < w.bucketTime)
    (hgap : (w.buckets.length : Int) * w.bucketTime < now - w.lastAccess) :
    rotSteps (now - w.lastAccess) w.bucketTime w.buckets.length = w.buckets.length := by
  have hone : (1 : Int) ≤ (w.buckets.length : Int) := by exact_mod_cast hn
  have htn : w.bucketTime ≤ (w.buckets.length : Int) * w.bucketTime := by nlinarith
  have he : w.bucketTime < now - w.lastAccess := lt_of_le_of_lt htn hgap
  rw [rotSteps_eq w.bucketTime ht w.buckets.length (now - w.lastAccess) (le_of_lt he)]
  have hdiv : (w.buckets.length : Int) ≤ (now - w.lastAccess) / w.bucketTime :=
    (Int.le_ediv_iff_mul_le ht).mpr (le_of_lt hgap)
  omega

theorem getLatestBucket_gap_replicate (w : Window) (now : Int)
    (hn : 0 < w.buckets.length) (ht : 0 < w.bucketTime)
    (hgap : (w.buckets.length : Int) * w.bucketTime < now - w.lastAccess) :
    (w.getLatestBucket now).1.buckets = List.replicate w.buckets.length zeroBucket := by
  have hone : (1 : Int) ≤ (w.buckets.length : Int) := by exact_mod_cast hn
  have htn : w.bucketTime ≤ (w.buckets.length : Int) * w.bucketTime := by nlinarith
  have he : w.bucketTime < now - w.lastAccess := lt_of_le_of_lt htn hgap
  rw [getLatestBucket_of_gt w now he]
  rw [rotSteps_full w now hn ht hgap]
  rw [List.eq_replicate_iff]
  refine ⟨resetRange_length .., ?_⟩
  intro b hb
  rcases List.mem_iff_getElem?.mp hb with ⟨i, hi⟩
  have hilt : i < w.buckets.length := by
    by_contra hge
    rw [List.getElem?_eq_none (by rw [resetRange_length]; omega)] at hi
    cases hi
  have hcov := exists_step_of_lt w.buckets.length w.lastIdx i hn hilt
  have := resetRange_getElem?_mem w.buckets.length w.buckets w.lastIdx i hn hcov
  rw [this] at hi
  exact (Option.some.injEq ..).mp hi |>.symm

/-! ### The claims -/

/-- Claim C1: for a saturation cap C > 0, a failure event increments the
failure counter only while it is below C; once the counter has reached C
each further failure event increments the limited-failure counter
instead, so after more than C failures within a single bucket interval
(no rotation) the failure counter equals exactly C; with cap 0 (unset) a
failure event behaves as the unbounded Fail() increment. -/
theorem claim_C1_saturation (cap s l : Int) (b : BucketL) (k : Nat) (hcap : 0 < cap) :
    (b.failure < cap →
      (BucketL.failLimited cap b).failure = b.failure + 1 ∧
      (BucketL.failLimited cap b).limited = b.limited) ∧
    (¬ b.failure < cap →
      (BucketL.failLimited cap b).failure = b.failure ∧
      (BucketL.failLimited cap b).limited = b.limited + 1) ∧
    (cap < (k : Int) →
      iterFailLimited cap k { failure := 0, success := s, limited := l }
        = { failure := cap, success := s, limited := l + ((k : Int) - cap) }) ∧
    BucketL.failLimited 0 b = BucketL.fail b := by
  have hcap0 : cap ≠ 0 := by omega
  refine ⟨?_, ?_, ?_, ?_⟩
  · intro hlt
    cases b with
    | mk f s' l' =>
      rw [failLimited_below cap f s' l' hcap0 hlt]
      exact ⟨rfl, rfl⟩
  · intro hge
    cases b with
    | mk f s' l' =>
      rw [failLimited_at_cap cap f s' l' hcap0 hge]
      exact ⟨rfl, rfl⟩
  · intro hk
    rw [iterFailLimited_spec cap hcap k 0 s l (le_refl 0) (le_of_lt hcap)]
    rw [if_neg (by omega)]
    simp only [BucketL.mk.injEq, and_true, true_and]
    omega
  · simp [BucketL.failLimited]

/-- Witness for C1 at cap 3, bucket ⟨2,0,0⟩, k = 5 failure events. -/
theorem claim_C1_saturation_witness :
    (0 : Int) < 3 ∧
    (((BucketL.mk 2 0 0).failure < 3 →
        (BucketL.failLimited 3 (BucketL.mk 2 0 0)).failure = (BucketL.mk 2 0 0).failure + 1 ∧
        (BucketL.failLimited 3 (BucketL.mk 2 0 0)).limited = (BucketL.mk 2 0 0).limited) ∧
      (¬ (BucketL.mk 2 0 0).failure < 3 →
        (BucketL.failLimited 3 (BucketL.mk 2 0 0)).failure = (BucketL.mk 2 0 0).failure ∧
        (BucketL.failLimited 3 (BucketL.mk 2 0 0)).limited = (BucketL.mk 2 0 0).limited + 1) ∧
      ((3 : Int) < ((5 : Nat) : Int) →
        iterFailLimited 3 5 { failure := 0, success := 0, limited := 0 }
          = { failure := 3, success := 0, limited := 0 + (((5 : Nat) : Int) - 3) }) ∧
      BucketL.failLimited 0 (BucketL.mk 2 0 0) = BucketL.fail (BucketL.mk 2 0 0)) :=
  ⟨by decide, claim_C1_saturation 3 0 0 (BucketL.mk 2 0 0) 5 (by decide)⟩

/-- Counterexample for C2: constructing with bucket count 0 does not
yield the explicit InvalidConfiguration failure the claim requires; it
hits a division-by-zero runtime fault (at construction time). -/
theorem claim_C2_counterexample :
    newWindow 10000000 0 0 ≠ ConstructResult.invalidConfiguration ∧
    newWindow 10000000 0 0 = ConstructResult.runtimeFault GoPanic.divideByZero := by
  exact ⟨by decide, by decide⟩

/-- Claim C2 (amended): constructing a window with a non-positive bucket
count faults at construction time — a negative count faults in the slice
allocation, a zero count in the bucket-time division — rather than
succeeding; but the failure is a runtime fault, not an explicit
InvalidConfiguration failure kind. -/
theorem claim_C2_construction_fault (windowTime windowBuckets now : Int)
    (h : windowBuckets ≤ 0) :
    newWindow windowTime windowBuckets now
      = ConstructResult.runtimeFault
          (if windowBuckets < 0 then GoPanic.makesliceBadLen else GoPanic.divideByZero) := by
  by_cases h1 : windowBuckets < 0
  · simp [newWindow, h1]
  · have h2 : windowBuckets = 0 := by omega
    simp [newWindow, h1, h2]

/-- Witness for the amended C2 at bucket count 0. -/
theorem claim_C2_construction_fault_witness :
    (0 : Int) ≤ 0 ∧
    newWindow 10000000 0 0
      = ConstructResult.runtimeFault
          (if (0 : Int) < 0 then GoPanic.makesliceBadLen else GoPanic.divideByZero) :=
  ⟨by decide, claim_C2_construction_fault 10000000 0 0 (by decide)⟩

/-- Claim C6: with a 10ms window split into 2 buckets of 5ms each,
recording a failure, advancing the clock 6ms and recording a second
failure leaves exactly 2 distinct buckets with a nonzero failure count
(times in nanoseconds). -/
theorem claim_C6_two_buckets :
    ∃ w0, newWindow 10000000 2 0 = ConstructResult.ok w0 ∧
      countFailBuckets ((w0.fail 0).fail 6000000) = 2 := by
  refine ⟨_, rfl, ?_⟩
  decide

/-- Claim C7: after Reset, regardless of prior state, Failures,
Successes and Total all return 0. -/
theorem claim_C7_reset_clears (w : Window) :
    w.Reset.Failures = 0 ∧ w.Reset.Successes = 0 ∧ w.Reset.Total = 0 := by
  refine ⟨sum_failure_map_reset w.buckets, sum_success_map_reset w.buckets, ?_⟩
  rw [total_eq,
    show Window.Failures w.Reset = 0 from sum_failure_map_reset w.buckets,
    show Window.Successes w.Reset = 0 from sum_success_map_reset w.buckets]
  norm_num

/-- Claim C8: Reset zeroes every bucket of the ring but leaves the
rotation index, the last-access timestamp, the bucket time and the
bucket count unchanged (the clock is a constructor capability, not
state). -/
theorem claim_C8_reset_frame (w : Window) :
    w.Reset.lastIdx = w.lastIdx ∧
    w.Reset.lastAccess = w.lastAccess ∧
    w.Reset.bucketTime = w.bucketTime ∧
    w.Reset.buckets.length = w.buckets.length ∧
    ∀ b ∈ w.Reset.buckets, b = zeroBucket := by
  refine ⟨rfl, rfl, rfl, List.length_map .., ?_⟩
  intro b hb
  rcases List.mem_map.mp hb with ⟨a, -, rfl⟩
  rfl

/-- Claim C10: for every window state — in particular every reachable
one — Total equals Failures plus Successes. -/
theorem claim_C10_total_split (w : Window) :
    w.Total = w.Failures + w.Successes :=
  total_eq w

/-- Claim C3: on every rotation step (performed by Fail/Success through
getLatestBucket): if the elapsed time since the last access is at most
one bucket time, the current bucket index and all bucket contents are
unchanged; otherwise the ring index advances and the newly-current
bucket is reset once per full bucket time contained in the elapsed time
— stopping as soon as the remainder drops below the bucket time — with
at most bucketCount resets in one call, and a gap larger than the whole
window resets every bucket of the ring. -/
theorem claim_C3_rotation_step (w : Window) (now : Int)
    (hn : 0 < w.buckets.length) (ht : 0 < w.bucketTime) :
    (now - w.lastAccess ≤ w.bucketTime →
      w.getLatestBucket now = (w, w.lastIdx % w.buckets.length)) ∧
    (w.bucketTime < now - w.lastAccess →
      (w.getLatestBucket now).1.lastIdx = w.lastIdx
          + min w.buckets.length (((now - w.lastAccess) / w.bucketTime).toNat) ∧
      (w.getLatestBucket now).1.lastAccess = now ∧
      (w.getLatestBucket now).1.buckets.length = w.buckets.length ∧
      min w.buckets.length (((now - w.lastAccess) / w.bucketTime).toNat)
          ≤ w.buckets.length ∧
      (∀ i, (∃ j, 1 ≤ j
              ∧ j ≤ min w.buckets.length (((now - w.lastAccess) / w.bucketTime).toNat)
              ∧ (w.lastIdx + j) % w.buckets.length = i) →
        (w.getLatestBucket now).1.buckets[i]? = some zeroBucket) ∧
      (∀ i, (∀ j, 1 ≤ j
              → j ≤ min w.buckets.length (((now - w.lastAccess) / w.bucketTime).toNat)
              → (w.lastIdx + j) % w.buckets.length ≠ i) →
        (w.getLatestBucket now).1.buckets[i]? = w.buckets[i]?) ∧
      ((w.buckets.length : Int) * w.bucketTime < now - w.lastAccess →
        ∀ b ∈ (w.getLatestBucket now).1.buckets, b = zeroBucket)) := by
  constructor
  · intro h
    exact getLatestBucket_of_le w now h
  · intro he
    have hgb := getLatestBucket_of_gt w now he
    have hK := rotSteps_eq w.bucketTime ht w.buckets.length (now - w.lastAccess)
      (le_of_lt he)
    have hbk : (w.getLatestBucket now).1.buckets
        = resetRange w.buckets w.lastIdx
            (rotSteps (now - w.lastAccess) w.bucketTime w.buckets.length) := by
      rw [hgb]
    have hidx : (w.getLatestBucket now).1.lastIdx
        = w.lastIdx + rotSteps (now - w.lastAccess) w.bucketTime w.buckets.length := by
      rw [hgb]
    have hacc : (w.getLatestBucket now).1.lastAccess = now := by rw [hgb]
    refine ⟨by rw [hidx, hK], hacc, by rw [hbk, resetRange_length],
      Nat.min_le_left .., ?_, ?_, ?_⟩
    · intro i hex
      rw [hbk]
      rw [← hK] at hex
      exact resetRange_getElem?_mem _ _ _ _ hn hex
    · intro i hnone
      rw [hbk]
      refine resetRange_getElem?_not_mem _ _ _ _ ?_
      intro j hj1 hj2
      exact hnone j hj1 (hK ▸ hj2)
    · intro hgap b hb
      have hrep := getLatestBucket_gap_replicate w now hn ht hgap
      rw [hrep] at hb
      exact List.eq_of_mem_replicate hb

/-- Witness for C3 on a concrete 3-bucket window with bucket time 5,
rotated at elapsed time 12. -/
theorem claim_C3_rotation_step_witness :
    (0 < (Window.mk [Bucket.mk 5 6, Bucket.mk 7 8, Bucket.mk 9 10] 5 0 0).buckets.length ∧
     0 < (Window.mk [Bucket.mk 5 6, Bucket.mk 7 8, Bucket.mk 9 10] 5 0 0).bucketTime) ∧
    (((12 : Int) - (Window.mk [Bucket.mk 5 6, Bucket.mk 7 8, Bucket.mk 9 10] 5 0 0).lastAccess
        ≤ (Window.mk [Bucket.mk 5 6, Bucket.mk 7 8, Bucket.mk 9 10] 5 0 0).bucketTime →
      (Window.mk [Bucket.mk 5 6, Bucket.mk 7 8, Bucket.mk 9 10] 5 0 0).getLatestBucket 12
        = (Window.mk [Bucket.mk 5 6, Bucket.mk 7 8, Bucket.mk 9 10] 5 0 0,
            (Window.mk [Bucket.mk 5 6, Bucket.mk 7 8, Bucket.mk 9 10] 5 0 0).lastIdx
              % (Window.mk [Bucket.mk 5 6, Bucket.mk 7 8, Bucket.mk 9 10] 5 0 0).buckets.length)) ∧
     ((Window.mk [Bucket.mk 5 6, Bucket.mk 7 8, Bucket.mk 9 10] 5 0 0).bucketTime
        < (12 : Int) - (Window.mk [Bucket.mk 5 6, Bucket.mk 7 8, Bucket.mk 9 10] 5 0 0).lastAccess →
      ((Window.mk [Bucket.mk 5 6, Bucket.mk 7 8, Bucket.mk 9 10] 5 0 0).getLatestBucket 12).1.lastIdx
          = (Window.mk [Bucket.mk 5 6, Bucket.mk 7 8, Bucket.mk 9 10] 5 0 0).lastIdx
            + min (Window.mk [Bucket.mk 5 6, Bucket.mk 7 8, Bucket.mk 9 10] 5 0 0).buckets.length
                ((((12 : Int) - (Window.mk [Bucket.mk 5 6, Bucket.mk 7 8, Bucket.mk 9 10] 5 0 0).lastAccess)
                    / (Window.mk [Bucket.mk 5 6, Bucket.mk 7 8, Bucket.mk 9 10] 5 0 0).bucketTime).toNat) ∧
      ((Window.mk [Bucket.mk 5 6, Bucket.mk 7 8, Bucket.mk 9 10] 5 0 0).getLatestBucket 12).1.lastAccess = 12 ∧
      ((Window.mk [Bucket.mk 5 6, Bucket.mk 7 8, Bucket.mk 9 10] 5 0 0).getLatestBucket 12).1.buckets.length
          = (Window.mk [Bucket.mk 5 6, Bucket.mk 7 8, Bucket.mk 9 10] 5 0 0).buckets.length ∧
      min (Window.mk [Bucket.mk 5 6, Bucket.mk 7 8, Bucket.mk 9 10] 5 0 0).buckets.length
          ((((12 : Int) - (Window.mk [Bucket.mk 5 6, Bucket.mk 7 8, Bucket.mk 9 10] 5 0 0).lastAccess)
              / (Window.mk [Bucket.mk 5 6, Bucket.mk 7 8, Bucket.mk 9 10] 5 0 0).bucketTime).toNat)
          ≤ (Window.mk [Bucket.mk 5 6, Bucket.mk 7 8, Bucket.mk 9 10] 5 0 0).buckets.length ∧
      (∀ i, (∃ j, 1 ≤ j
              ∧ j ≤ min (Window.mk [Bucket.mk 5 6, Bucket.mk 7 8, Bucket.mk 9 10] 5 0 0).buckets.length
                    ((((12 : Int) - (Window.mk [Bucket.mk 5 6, Bucket.mk 7 8, Bucket.mk 9 10] 5 0 0).lastAccess)
                        / (Window.mk [Bucket.mk 5 6, Bucket.mk 7 8, Bucket.mk 9 10] 5 0 0).bucketTime).toNat)
              ∧ ((Window.mk [Bucket.mk 5 6, Bucket.mk 7 8, Bucket.mk 9 10] 5 0 0).lastIdx + j)
                  % (Window.mk [Bucket.mk 5 6, Bucket.mk 7 8, Bucket.mk 9 10] 5 0 0).buckets.length = i) →
        ((Window.mk [Bucket.mk 5 6, Bucket.mk 7 8, Bucket.mk 9 10] 5 0 0).getLatestBucket 12).1.buckets[i]?
          = some zeroBucket) ∧
      (∀ i, (∀ j, 1 ≤ j
              → j ≤ min (Window.mk [Bucket.mk 5 6, Bucket.mk 7 8, Bucket.mk 9 10] 5 0 0).buckets.length
                    ((((12 : Int) - (Window.mk [Bucket.mk 5 6, Bucket.mk 7 8, Bucket.mk 9 10] 5 0 0).lastAccess)
                        / (Window.mk [Bucket.mk 5 6, Bucket.mk 7 8, Bucket.mk 9 10] 5 0 0).bucketTime).toNat)
              → ((Window.mk [Bucket.mk 5 6, Bucket.mk 7 8, Bucket.mk 9 10] 5 0 0).lastIdx + j)
                  % (Window.mk [Bucket.mk 5 6, Bucket.mk 7 8, Bucket.mk 9 10] 5 0 0).buckets.length ≠ i) →
        ((Window.mk [Bucket.mk 5 6, Bucket.mk 7 8, Bucket.mk 9 10] 5 0 0).getLatestBucket 12).1.buckets[i]?
          = (Window.mk [Bucket.mk 5 6, Bucket.mk 7 8, Bucket.mk 9 10] 5 0 0).buckets[i]?) ∧
      (((Window.mk [Bucket.mk 5 6, Bucket.mk 7 8, Bucket.mk 9 10] 5 0 0).buckets.length : Int)
            * (Window.mk [Bucket.mk 5 6, Bucket.mk 7 8, Bucket.mk 9 10] 5 0 0).bucketTime
          < (12 : Int) - (Window.mk [Bucket.mk 5 6, Bucket.mk 7 8, Bucket.mk 9 10] 5 0 0).lastAccess →
        ∀ b ∈ ((Window.mk [Bucket.mk 5 6, Bucket.mk 7 8, Bucket.mk 9 10] 5 0 0).getLatestBucket 12).1.buckets,
          b = zeroBucket))) :=
  ⟨⟨by decide, by decide⟩,
    claim_C3_rotation_step (Window.mk [Bucket.mk 5 6, Bucket.mk 7 8, Bucket.mk 9 10] 5 0 0)
      12 (by decide) (by decide)⟩

/-- Claim C4: for every sequence of events recorded within one bucket
interval (no clock reading beyond lastAccess + bucketTime, so no
rotation), Failures returns the number N of failures, Successes the
number M of successes, Total returns N+M, and ErrorRate returns
N/(N+M), or 0 when N=M=0. -/
theorem claim_C4_single_interval (windowTime windowBuckets t0 : Int) (w0 : Window)
    (ops : List Op)
    (hok : newWindow windowTime windowBuckets t0 = .ok w0)
    (hbt : 0 ≤ w0.bucketTime)
    (hops : ∀ op ∈ ops, op.time ≤ t0 + w0.bucketTime) :
    (applyOps w0 ops).Failures = countFails ops ∧
    (applyOps w0 ops).Successes = countSuccesses ops ∧
    (applyOps w0 ops).Total = countFails ops + countSuccesses ops ∧
    (applyOps w0 ops).ErrorRate
      = if countFails ops + countSuccesses ops = 0 then 0
        else (countFails ops : ℚ)
          / ((countFails ops : ℚ) + (countSuccesses ops : ℚ)) := by
  obtain ⟨hwb, rfl⟩ := newWindow_ok _ _ _ _ hok
  have hops' : ∀ op ∈ ops, op.time ≤ t0 + Int.tdiv windowTime windowBuckets := hops
  obtain ⟨m, hm⟩ : ∃ m, windowBuckets.toNat = m + 1 := ⟨windowBuckets.toNat - 1, by omega⟩
  have happ : applyOps
      { buckets := List.replicate (m + 1) zeroBucket
        bucketTime := Int.tdiv windowTime windowBuckets
        lastAccess := t0
        lastIdx := 0 } ops
      = { buckets :=
            { failure := 0 + (countFails ops : Int), success := 0 + (countSuccesses ops : Int) }
              :: List.replicate m zeroBucket
          bucketTime := Int.tdiv windowTime windowBuckets
          lastAccess := t0
          lastIdx := 0 } :=
    applyOps_one_bucket (Int.tdiv windowTime windowBuckets) t0 m ops 0 0 hops'
  rw [hm, happ]
  refine ⟨?_, ?_, ?_, ?_⟩
  · rw [Failures_one_bucket]; omega
  · rw [Successes_one_bucket]; omega
  · rw [total_eq, Failures_one_bucket, Successes_one_bucket]; omega
  · rw [ErrorRate_eq, Failures_one_bucket, Successes_one_bucket]
    by_cases h : countFails ops + countSuccesses ops = 0
    · rw [if_pos h, if_pos (by omega)]
    · rw [if_neg h, if_neg (by omega)]
      push_cast
      ring

/-- Witness for C4 on a 10ms 2-bucket window with two failures and one
success recorded inside the first 5ms bucket. -/
theorem claim_C4_single_interval_witness :
    (newWindow 10000000 2 0
        = ConstructResult.ok
            (Window.mk [zeroBucket, zeroBucket] 5000000 0 0) ∧
      0 ≤ (Window.mk [zeroBucket, zeroBucket] 5000000 0 0).bucketTime ∧
      (∀ op ∈ [Op.fail 0, Op.fail 1000000, Op.success 2000000],
        op.time ≤ 0 + (Window.mk [zeroBucket, zeroBucket] 5000000 0 0).bucketTime)) ∧
    ((applyOps (Window.mk [zeroBucket, zeroBucket] 5000000 0 0)
        [Op.fail 0, Op.fail 1000000, Op.success 2000000]).Failures
      = countFails [Op.fail 0, Op.fail 1000000, Op.success 2000000] ∧
    (applyOps (Window.mk [zeroBucket, zeroBucket] 5000000 0 0)
        [Op.fail 0, Op.fail 1000000, Op.success 2000000]).Successes
      = countSuccesses [Op.fail 0, Op.fail 1000000, Op.success 2000000] ∧
    (applyOps (Window.mk [zeroBucket, zeroBucket] 5000000 0 0)
        [Op.fail 0, Op.fail 1000000, Op.success 2000000]).Total
      = countFails [Op.fail 0, Op.fail 1000000, Op.success 2000000]
        + countSuccesses [Op.fail 0, Op.fail 1000000, Op.success 2000000] ∧
    (applyOps (Window.mk [zeroBucket, zeroBucket] 5000000 0 0)
        [Op.fail 0, Op.fail 1000000, Op.success 2000000]).ErrorRate
      = if countFails [Op.fail 0, Op.fail 1000000, Op.success 2000000]
            + countSuccesses [Op.fail 0, Op.fail 1000000, Op.success 2000000] = 0 then 0
        else (countFails [Op.fail 0, Op.fail 1000000, Op.success 2000000] : ℚ)
          / ((countFails [Op.fail 0, Op.fail 1000000, Op.success 2000000] : ℚ)
            + (countSuccesses [Op.fail 0, Op.fail 1000000, Op.success 2000000] : ℚ))) :=
  ⟨⟨by decide, by decide, by decide⟩,
    claim_C4_single_interval 10000000 2 0
      (Window.mk [zeroBucket, zeroBucket] 5000000 0 0)
      [Op.fail 0, Op.fail 1000000, Op.success 2000000]
      (by decide) (by decide) (by decide)⟩

/-- A helper for C5: the index returned by getLatestBucket is within the
ring. -/
theorem getLatestBucket_idx_lt (w : Window) (now : Int)
    (hn : 0 < w.buckets.length) :
    (w.getLatestBucket now).2 < w.buckets.length := by
  unfold Window.getLatestBucket
  by_cases h : now - w.lastAccess > w.bucketTime
  · rw [if_pos h]; exact Nat.mod_lt _ hn
  · rw [if_neg h]; exact Nat.mod_lt _ hn

/-- Claim C5: once the clock has advanced beyond the total window
duration, the next recorded operation clears all previously recorded
failures — a success leaves Failures at 0, a failure leaves only
itself. -/
theorem claim_C5_full_window_expiry (w : Window) (now : Int)
    (hn : 0 < w.buckets.length) (ht : 0 < w.bucketTime)
    (hgap : (w.buckets.length : Int) * w.bucketTime < now - w.lastAccess) :
    (w.success now).Failures = 0 ∧ (w.fail now).Failures = 1 := by
  have hrep := getLatestBucket_gap_replicate w now hn ht hgap
  have hlen : (w.getLatestBucket now).1.buckets.length = w.buckets.length := by
    rw [hrep, List.length_replicate]
  have hidxlt : (w.getLatestBucket now).2 < (w.getLatestBucket now).1.buckets.length := by
    rw [hlen]
    exact getLatestBucket_idx_lt w now hn
  constructor
  · show ((modifyIdx Bucket.Success (w.getLatestBucket now).2
        (w.getLatestBucket now).1.buckets).map Bucket.failure).sum = 0
    rw [sum_failure_modifyIdx_success, hrep, sum_failure_replicate_zero]
  · show ((modifyIdx Bucket.Fail (w.getLatestBucket now).2
        (w.getLatestBucket now).1.buckets).map Bucket.failure).sum = 1
    rw [sum_failure_modifyIdx_fail _ _ hidxlt, hrep, sum_failure_replicate_zero]
    norm_num

/-- Witness for C5 on a 1-bucket window holding 3 failures, accessed
after a gap of 100 time units. -/
theorem claim_C5_full_window_expiry_witness :
    (0 < (Window.mk [Bucket.mk 3 4] 5 0 0).buckets.length ∧
      0 < (Window.mk [Bucket.mk 3 4] 5 0 0).bucketTime ∧
      ((Window.mk [Bucket.mk 3 4] 5 0 0).buckets.length : Int)
          * (Window.mk [Bucket.mk 3 4] 5 0 0).bucketTime
        < (100 : Int) - (Window.mk [Bucket.mk 3 4] 5 0 0).lastAccess) ∧
    (((Window.mk [Bucket.mk 3 4] 5 0 0).success 100).Failures = 0 ∧
      ((Window.mk [Bucket.mk 3 4] 5 0 0).fail 100).Failures = 1) :=
  ⟨⟨by decide, by decide, by decide⟩,
    claim_C5_full_window_expiry (Window.mk [Bucket.mk 3 4] 5 0 0) 100
      (by decide) (by decide) (by decide)⟩

/-- Claim C9: for every reachable window state, ErrorRate is the
fraction failures / (failures + successes), lies in [0,1], and is
exactly 0 — a defined value, not a fault — when the total count is 0
(float64 modelled by exact rationals). -/
theorem claim_C9_error_rate_bounds (w : Window) (h : Reachable w) :
    0 ≤ w.ErrorRate ∧ w.ErrorRate ≤ 1 ∧ (w.Total = 0 → w.ErrorRate = 0) := by
  have hnn := reachable_nonneg w h
  have hF := Failures_nonneg w hnn
  have hS := Successes_nonneg w hnn
  rw [ErrorRate_eq]
  by_cases hz : w.Successes + w.Failures = 0
  · rw [if_pos hz]
    norm_num
  · rw [if_neg hz]
    have hpos : (0 : Int) < w.Successes + w.Failures := by omega
    have hposQ : (0 : ℚ) < ((w.Successes + w.Failures : Int) : ℚ) := by
      exact_mod_cast hpos
    refine ⟨div_nonneg (by exact_mod_cast hF) (le_of_lt hposQ), ?_, ?_⟩
    · rw [div_le_one hposQ]
      exact_mod_cast (by omega : w.Failures ≤ w.Successes + w.Failures)
    · intro htot
      rw [total_eq] at htot
      omega

/-- Witness for C9 on the freshly constructed 10ms 2-bucket window. -/
theorem claim_C9_error_rate_bounds_witness :
    0 ≤ (Window.mk [zeroBucket, zeroBucket] 5000000 0 0).ErrorRate ∧
    (Window.mk [zeroBucket, zeroBucket] 5000000 0 0).ErrorRate ≤ 1 ∧
    ((Window.mk [zeroBucket, zeroBucket] 5000000 0 0).Total = 0 →
      (Window.mk [zeroBucket, zeroBucket] 5000000 0 0).ErrorRate = 0) :=
  claim_C9_error_rate_bounds (Window.mk [zeroBucket, zeroBucket] 5000000 0 0)
    (Reachable.init 10000000 2 0 _ (by decide))

end Circuit
